import Mathlib

/-!
Shallow embedding of `health-checker.go` (package main) and proofs about it.

The program fetches, for every RSS feed in a catalog, the number of articles
ingested in the last 24 hours (with a 10-attempt retry loop per feed, run in
one goroutine per feed), aggregates the per-feed counts into a map keyed by
magazine name, sorts the keys ascending by count with `sort.SliceStable`, and
renders a CSV report.  On Fridays it additionally resolves an owner for every
paused feed through a Salesforce query and sends one reminder per owner.

Modelling conventions:
* machine integers are `Nat`/`Int` (status codes and counts are non-negative);
* each HTTP attempt is an `Attempt` value describing what the network returned;
* a Go `panic` is a distinguished outcome (it terminates the whole process);
* a Go `map` is an association list whose key order is first-insertion order;
  since Go randomizes map iteration order, every `range` over a map takes the
  iteration order as an explicit parameter (any permutation of the keys);
* `sort.SliceStable` (stable, ascending) is modelled by `List.insertionSort`
  with the reflexive closure of the comparison, which computes exactly the
  stable ascending sort;
* goroutine completion order is nondeterministic, so the order in which
  results arrive on the channel is an explicit parameter as well.
-/

namespace HealthChecker

/-- `Feed` struct (health-checker.go lines 31-37). -/
structure Feed where
  publisher : String
  feedUrl : String
  lastUpdatedDate : String
  feedName : String
  pauseIngestion : Bool
deriving Repr, DecidableEq, Inhabited

/-- `DBRow` struct (lines 39-48).  The two float32 fields (`lead_classifier`,
`sentiment_score`) are never read by the checker (only the row count is used),
so they are omitted from the embedding. -/
structure DBRow where
  id : Int
  articleTitle : String
  articlePublisher : String
  articleMagazine : String
  articleUrl : String
  articlePubdate : Int
deriving Repr, DecidableEq, Inhabited

/-- `MagazineData` struct (lines 50-53); the values sent on `magDataCh`. -/
structure MagazineData where
  magazine : String
  ingestedArticles : Nat
deriving Repr, DecidableEq, Inhabited

/-- Observable outcome of one `http.Get` attempt in the retry loop:
`transportOk` is `err == nil`, `statusCode` is `res.StatusCode`, and
`decoded` is the result of JSON-decoding the body as `[]DBRow`
(`none` = decode error).  The decode is only ever performed on a
transport-ok 2xx response. -/
structure Attempt where
  transportOk : Bool
  statusCode : Nat
  decoded : Option (List DBRow)
deriving Repr, DecidableEq, Inhabited

/-- The success test of the retry loop (line 210):
`err == nil && res.StatusCode/100 == 2`. -/
def attemptSuccess (a : Attempt) : Bool :=
  a.transportOk && decide (a.statusCode / 100 = 2)

/-- How one feed's fetch goroutine terminates. -/
inductive FetchOutcome where
  /-- 2xx response decoded as `[]DBRow`; `count` rows; one send on the channel. -/
  | success (count : Nat)
  /-- 2xx response whose body failed to decode: `panic(err)` (line 215). -/
  | decodePanic
  /-- all attempts failed; the loop falls off the end and sends nothing. -/
  | exhausted
deriving Repr, DecidableEq, Inhabited

/-- Trace of one feed's retry loop: how it ended, how many `http.Get` calls
were issued, and how many `time.Sleep(time.Second)` calls were executed. -/
structure FetchTrace where
  outcome : FetchOutcome
  requests : Nat
  sleeps : Nat
deriving Repr, DecidableEq, Inhabited

/-- The retry loop `for j := 0; j < 10; j++` (lines 207-233), with the
attempt outcomes supplied by the environment `attempts : Nat → Attempt`;
`j` is the current loop index, the final argument the remaining fuel. -/
def fetchGo (attempts : Nat → Attempt) (j : Nat) : Nat → FetchTrace
  | 0 => ⟨.exhausted, 0, 0⟩
  | fuel + 1 =>
    let a := attempts j
    if attemptSuccess a then
      match a.decoded with
      | some rows => ⟨.success rows.length, 1, 0⟩
      | none => ⟨.decodePanic, 1, 0⟩
    else
      let r := fetchGo attempts (j + 1) fuel
      ⟨r.outcome, r.requests + 1, r.sleeps + 1⟩

/-- One feed's whole fetch: the loop starting at `j = 0` with bound 10. -/
def fetchFeed (attempts : Nat → Attempt) : FetchTrace :=
  fetchGo attempts 0 10

/-- The outcome of the retry loop once a transport-ok 2xx response is in hand,
as a function of the body's decode result (lines 211-222). -/
def decodeOutcome : Option (List DBRow) → FetchOutcome
  | some rows => .success rows.length
  | none => .decodePanic

/-- Outcome of feed `i`'s goroutine, with `attempts i j` the outcome of the
`j`-th attempt of feed `i`. -/
def feedOutcome (attempts : Nat → Nat → Attempt) (i : Nat) : FetchOutcome :=
  (fetchFeed (attempts i)).outcome

/-- Number of sends a goroutine performs on `magDataCh`: exactly one in the
success branch (line 221), zero otherwise. -/
def sendsOfOutcome : FetchOutcome → Nat
  | .success _ => 1
  | _ => 0

/-- Capacity of `magDataCh := make(chan MagazineData, count)` with
`count = len(feeds)` (lines 183, 195). -/
def channelCapacity (feeds : List Feed) : Nat := feeds.length

/-- Total number of sends on `magDataCh` over the whole run. -/
def totalSends (feeds : List Feed) (attempts : Nat → Nat → Attempt) : Nat :=
  ((List.range feeds.length).map fun i => sendsOfOutcome (feedOutcome attempts i)).sum

/-- The contents of `magDataCh` read back after the join barrier, in the
(nondeterministic) completion order `order` of the goroutines: feed `i`
contributes `MagazineData{feeds[i].FeedName, len(dbRes)}` iff it succeeded
(lines 217-221, magazine := `feeds[i].FeedName`, line 234). -/
def successesInOrder (feeds : List Feed) (attempts : Nat → Nat → Attempt)
    (order : List Nat) : List MagazineData :=
  order.filterMap fun i =>
    match feeds[i]? with
    | none => none
    | some f =>
      match feedOutcome attempts i with
      | .success c => some ⟨f.feedName, c⟩
      | _ => none

/-- Whether some goroutine hit the decode `panic` (which kills the process). -/
def anyDecodePanic (feeds : List Feed) (attempts : Nat → Nat → Attempt) : Bool :=
  (List.range feeds.length).any fun i => decide (feedOutcome attempts i = .decodePanic)

/-- Write `m[k] = v` on a Go map, modelled as an association list keeping
keys in first-insertion order: an existing key is updated in place, a new
key appended (lines 242-245). -/
def mapWrite : List (String × Nat) → String → Nat → List (String × Nat)
  | [], k, v => [(k, v)]
  | p :: t, k, v => if p.1 = k then (k, v) :: t else p :: mapWrite t k v

/-- The aggregation loop `for chValue := range magDataCh {
allMagData[chValue.Magazine] = chValue.IngestedArticles }` (lines 242-245). -/
def aggregate (arrivals : List MagazineData) : List (String × Nat) :=
  arrivals.foldl (fun m d => mapWrite m d.magazine d.ingestedArticles) []

/-- Map lookup returning `none` for an absent key. -/
def lookup? (m : List (String × Nat)) (k : String) : Option Nat :=
  (m.find? fun p => p.1 = k).map Prod.snd

/-- Map lookup with Go's zero value for an absent key (`allMagData[key]`). -/
def lookupD (m : List (String × Nat)) (k : String) : Nat :=
  (lookup? m k).getD 0

/-- Specification helper: the count carried by the LAST element of `arrivals`
whose magazine is `k`, if any (last-write-wins reference semantics). -/
def lastWrite : List MagazineData → String → Option Nat
  | [], _ => none
  | d :: t, k =>
    match lastWrite t k with
    | some v => some v
    | none => if d.magazine = k then some d.ingestedArticles else none

/-- Comparison used by `sort.SliceStable` (lines 252-254) as a reflexive
relation: the stable ascending sort by `allMagData[keys[i]] < allMagData[keys[j]]`
is the stable sort under `≤` on the counts. -/
def countLe (agg : List (String × Nat)) (a b : String) : Prop :=
  lookupD agg a ≤ lookupD agg b

instance countLeDecidable (agg : List (String × Nat)) : DecidableRel (countLe agg) :=
  fun a b => inferInstanceAs (Decidable (lookupD agg a ≤ lookupD agg b))

/-- The order in which `for key := range allMagData` (lines 249-251) yields
the keys.  Go randomizes map iteration, so any permutation of the keys can
occur; an `iter` that is not a permutation of the keys cannot occur and is
replaced by the insertion order. -/
def iterOrder (agg : List (String × Nat)) (iter : List String) : List String :=
  if iter.Perm (agg.map Prod.fst) then iter else agg.map Prod.fst

/-- `keys` after `sort.SliceStable(keys, ...)` (lines 248-254): the stable
ascending sort, by count, of the keys in map-iteration order. -/
def sortKeys (agg : List (String × Nat)) (iter : List String) : List String :=
  List.insertionSort (countLe agg) (iterOrder agg iter)

/-- The data rows of the report, in the order `BuildCSV` writes them
(lines 331-337): one `(key, allMagData[key])` row per sorted key. -/
def buildReportRows (agg : List (String × Nat)) (iter : List String) :
    List (String × Nat) :=
  (sortKeys agg iter).map fun k => (k, lookupD agg k)

/-- The full CSV contents built by `BuildCSV` (lines 318-340): a header line
followed by one `[magazine, articles]` record per sorted key. -/
def buildCSV (agg : List (String × Nat)) (iter : List String) : List (List String) :=
  ["magazine", "articles"] :: (buildReportRows agg iter).map fun p => [p.1, toString p.2]

/-- `SFCSMObject` (lines 88-90). -/
structure SFCSMObject where
  email : String
deriving Repr, DecidableEq, Inhabited

/-- `SFQueryRecord` (lines 92-94). -/
structure SFQueryRecord where
  clientSuccessManager : SFCSMObject
deriving Repr, DecidableEq, Inhabited

/-- `SFQueryRes` (lines 96-100). -/
structure SFQueryRes where
  records : List SFQueryRecord
  totalSize : Int
  done : Bool
deriving Repr, DecidableEq, Inhabited

/-- The magazine filter used for the Salesforce query of a paused feed
(lines 354-357): the feed's own name, overridden to "The New York Times"
when the publisher is "The New York Times". -/
def queryMag (f : Feed) : String :=
  if f.publisher = "The New York Times" then "The New York Times" else f.feedName

/-- `csmEmailFeed[email] = append(csmEmailFeed[email], feed)` (line 374) on the
insertion-ordered map model: append to an existing owner's group, or create a
one-element group for a new owner. -/
def appendOwner : List (String × List Feed) → String → Feed → List (String × List Feed)
  | [], e, f => [(e, [f])]
  | p :: t, e, f => if p.1 = e then (p.1, p.2 ++ [f]) :: t else p :: appendOwner t e f

/-- A single owner's accumulated group. -/
def ownerGroup (m : List (String × List Feed)) (e : String) : List Feed :=
  ((m.find? fun p => p.1 = e).map Prod.snd).getD []

/-- How `PausedFeedReminder` terminates. -/
inductive GrouperResult where
  /-- processed every feed; `groups` is the final `csmEmailFeed` map. -/
  | ok (groups : List (String × List Feed))
  /-- a Salesforce query (or the token fetch) returned an error: `return err`
  (lines 345-348, 359-362), reached before any email is sent. -/
  | err
  /-- `sfQueryRes.Records[0]` with an empty record set but `TotalSize == 1`:
  an index-out-of-range panic that kills the process. -/
  | panicked
deriving Repr, DecidableEq, Inhabited

/-- Result of the grouping loop together with the trace of Salesforce
queries it issued, in order. -/
structure GrouperTrace where
  result : GrouperResult
  queries : List String
deriving Repr, DecidableEq, Inhabited

/-- The loop of `PausedFeedReminder` over the feed list (lines 350-378):
skip unpaused feeds; query Salesforce for each paused feed; return the error
on a failed query; skip on `TotalSize < 1` (inactive) and on `TotalSize > 1`
(logged inconsistency); otherwise append the feed to the group of the first
record's Client Success Manager email. -/
def groupPaused (resolver : String → Except Unit SFQueryRes) :
    List Feed → List (String × List Feed) → List String → GrouperTrace
  | [], m, qs => ⟨.ok m, qs⟩
  | f :: rest, m, qs =>
    if f.pauseIngestion then
      match resolver (queryMag f) with
      | .error _ => ⟨.err, qs ++ [queryMag f]⟩
      | .ok res =>
        if res.totalSize < 1 then groupPaused resolver rest m (qs ++ [queryMag f])
        else if res.totalSize > 1 then groupPaused resolver rest m (qs ++ [queryMag f])
        else
          match res.records with
          | [] => ⟨.panicked, qs ++ [queryMag f]⟩
          | r :: _ =>
            groupPaused resolver rest
              (appendOwner m r.clientSuccessManager.email f) (qs ++ [queryMag f])
    else groupPaused resolver rest m qs

/-- `PausedFeedReminder` (lines 342-389): fetch the Salesforce token
(an error there is returned immediately), then run the grouping loop.
The trailing email loop (lines 380-386) sends one email per owner in the
resulting map; `SendEmail` itself is an external collaborator modelled as
succeeding. -/
def pausedFeedReminder (tokenRes : Except Unit String)
    (resolver : String → Except Unit SFQueryRes) (feeds : List Feed) : GrouperTrace :=
  match tokenRes with
  | .error _ => ⟨.err, []⟩
  | .ok _ => groupPaused resolver feeds [] []

/-- The reminder emails actually sent: one `(owner, group)` per entry of the
final map when the loop completed; none when it returned an error (the email
loop is only reached after every paused feed was processed). -/
def notificationsOf : GrouperResult → List (String × List Feed)
  | .ok groups => groups
  | _ => []

/-- `time.Weekday`; `time.Friday` is the gate of the reminder (lines 173-175). -/
inductive Weekday where
  | sunday | monday | tuesday | wednesday | thursday | friday | saturday
deriving Repr, DecidableEq, Inhabited

/-- Observable trace of one run of `main` after the feed list was obtained. -/
structure RunTrace where
  reminderInvoked : Bool
  resolverQueries : List String
  notificationsSent : List (String × List Feed)
  reportRows : List (String × Nat)
deriving Repr, DecidableEq, Inhabited

/-- One run of `main` from the point where the feed list is in hand
(lines 172-314): on Friday run `PausedFeedReminder` (an error from it is
logged and the run continues, line 178-180); dispatch one fetch goroutine
per feed; a decode panic in any goroutine (or an index panic in the
reminder) kills the process (`none`); otherwise aggregate the channel
contents, sort, and build the report. -/
def healthCheckerRun (currentDay : Weekday) (tokenRes : Except Unit String)
    (resolver : String → Except Unit SFQueryRes) (feeds : List Feed)
    (attempts : Nat → Nat → Attempt) (order : List Nat) (iter : List String) :
    Option RunTrace :=
  let gt : GrouperTrace :=
    if currentDay = Weekday.friday then pausedFeedReminder tokenRes resolver feeds
    else ⟨.ok [], []⟩
  match gt.result with
  | .panicked => none
  | _ =>
    if anyDecodePanic feeds attempts then none
    else
      let agg := aggregate (successesInOrder feeds attempts order)
      some { reminderInvoked := decide (currentDay = Weekday.friday)
             resolverQueries := gt.queries
             notificationsSent := notificationsOf gt.result
             reportRows := buildReportRows agg iter }

/-- The Salesforce queries the grouping loop issues for a prefix of the feed
list that it gets through without an error: one query per paused feed. -/
def pausedQueries (l : List Feed) : List String :=
  (l.filter fun f => f.pauseIngestion).map queryMag

/-- A feed the grouping loop gets past without stopping: either unpaused, or
its query succeeds and does not hit the `Records[0]` index panic. -/
def cleanFeed (resolver : String → Except Unit SFQueryRes) (f : Feed) : Bool :=
  !f.pauseIngestion ||
    (match resolver (queryMag f) with
     | .error _ => false
     | .ok res => !(decide (res.totalSize = 1) && res.records.isEmpty))

/- Concrete fixtures for witnesses and counterexamples. -/

/-- A sample unpaused feed. -/
def feedA : Feed := ⟨"PubA", "http://a.example/rss", "2024-01-01", "MagA", false⟩

/-- A second sample unpaused feed. -/
def feedB : Feed := ⟨"PubB", "http://b.example/rss", "2024-01-01", "MagB", false⟩

/-- A sample paused feed. -/
def feedP : Feed := ⟨"PubP", "http://p.example/rss", "2024-01-01", "MagP", true⟩

/-- A second sample paused feed (distinct magazine, same eventual owner). -/
def feedQ : Feed := ⟨"PubQ", "http://q.example/rss", "2024-01-01", "MagQ", true⟩

/-- A paused New York Times feed whose own feed name differs from the
publisher name. -/
def feedNYT : Feed := ⟨"The New York Times", "http://nyt.example/rss", "2024-01-01", "NYT Tech", true⟩

/-- A sample decoded article row. -/
def rowEx : DBRow := ⟨1, "title", "pub", "mag", "http://u", 0⟩

/-- An environment in which every attempt fails at transport level. -/
def attemptsAllFail : Nat → Nat → Attempt := fun _ _ => ⟨false, 0, none⟩

/-- An environment in which feed 0 gets a 2xx whose body fails to decode on
the first attempt, and every other feed succeeds at once with 0 rows. -/
def attemptsDecodeFail : Nat → Nat → Attempt := fun i _ =>
  if i = 0 then ⟨true, 200, none⟩ else ⟨true, 200, some []⟩

/-- A single feed's attempt sequence: two failures (HTTP 500), then a 2xx
carrying three rows. -/
def attemptsTwoFailThenOk : Nat → Attempt := fun j =>
  if j < 2 then ⟨true, 500, none⟩ else ⟨true, 200, some [rowEx, rowEx, rowEx]⟩

/-- An environment in which every feed succeeds on the first attempt with a
one-row body. -/
def attemptsOneRow : Nat → Nat → Attempt := fun _ _ => ⟨true, 200, some [rowEx]⟩

/-- A resolver that always answers with an empty record set. -/
def resolverEmpty : String → Except Unit SFQueryRes := fun _ => .ok ⟨[], 0, true⟩

/-- A resolver that always answers with exactly one record for one owner. -/
def resolverOne : String → Except Unit SFQueryRes :=
  fun _ => .ok ⟨[⟨⟨"csm@example.com"⟩⟩], 1, true⟩

/-- A resolver that fails on magazine "MagQ" and otherwise answers with one
record for one owner. -/
def resolverErrOnQ : String → Except Unit SFQueryRes := fun s =>
  if s = "MagQ" then .error () else .ok ⟨[⟨⟨"csm@example.com"⟩⟩], 1, true⟩

/-- Two successful arrivals with distinct magazines and equal counts. -/
def arrivalsTie : List MagazineData := [⟨"A", 5⟩, ⟨"B", 5⟩]

/-! ### Retry-loop lemmas -/

theorem fetchGo_requests_le (attempts : Nat → Attempt) (j fuel : Nat) :
    (fetchGo attempts j fuel).requests ≤ fuel := by
  induction fuel generalizing j with
  | zero => simp [fetchGo]
  | succ n ih =>
    rw [fetchGo]
    by_cases hs : attemptSuccess (attempts j)
    · cases hdec : (attempts j).decoded <;> simp [hs, hdec]
    · simp only [hs]
      simpa using Nat.succ_le_succ (ih (j + 1))

theorem fetchGo_all_fail (attempts : Nat → Attempt) (j fuel : Nat)
    (h : ∀ i, i < fuel → attemptSuccess (attempts (j + i)) = false) :
    fetchGo attempts j fuel = ⟨.exhausted, fuel, fuel⟩ := by
  induction fuel generalizing j with
  | zero => rfl
  | succ n ih =>
    have h0 : attemptSuccess (attempts j) = false := by simpa using h 0 (Nat.succ_pos n)
    have hr : fetchGo attempts (j + 1) n = ⟨.exhausted, n, n⟩ := by
      apply ih
      intro i hi
      have hh := h (i + 1) (Nat.succ_lt_succ hi)
      rwa [show j + (i + 1) = j + 1 + i by omega] at hh
    rw [fetchGo]
    simp [h0, hr]

theorem fetchGo_first_success (attempts : Nat → Attempt) (j fuel k : Nat)
    (hk : k < fuel)
    (hfail : ∀ i, i < k → attemptSuccess (attempts (j + i)) = false)
    (hsucc : attemptSuccess (attempts (j + k)) = true) :
    fetchGo attempts j fuel = ⟨decodeOutcome (attempts (j + k)).decoded, k + 1, k⟩ := by
  induction k generalizing j fuel with
  | zero =>
    obtain ⟨n, rfl⟩ : ∃ n, fuel = n + 1 := ⟨fuel - 1, by omega⟩
    rw [Nat.add_zero] at hsucc
    rw [fetchGo, Nat.add_zero]
    cases hdec : (attempts j).decoded <;> simp [hsucc, hdec, decodeOutcome]
  | succ k ih =>
    obtain ⟨n, rfl⟩ : ∃ n, fuel = n + 1 := ⟨fuel - 1, by omega⟩
    have h0 : attemptSuccess (attempts j) = false := by simpa using hfail 0 (Nat.succ_pos k)
    have hr : fetchGo attempts (j + 1) n =
        ⟨decodeOutcome (attempts (j + 1 + k)).decoded, k + 1, k⟩ := by
      apply ih (j + 1) n (by omega)
      · intro i hi
        have hh := hfail (i + 1) (Nat.succ_lt_succ hi)
        rwa [show j + (i + 1) = j + 1 + i by omega] at hh
      · rwa [show j + (k + 1) = j + 1 + k by omega] at hsucc
    rw [fetchGo, show j + (k + 1) = j + 1 + k by omega]
    simp [h0, hr]

theorem fetchGo_decodePanic_elim (attempts : Nat → Attempt) (j fuel : Nat)
    (h : (fetchGo attempts j fuel).outcome = .decodePanic) :
    ∃ k, k < fuel ∧ attemptSuccess (attempts (j + k)) = true ∧
      (attempts (j + k)).decoded = none ∧
      (∀ i, i < k → attemptSuccess (attempts (j + i)) = false) ∧
      fetchGo attempts j fuel = ⟨.decodePanic, k + 1, k⟩ := by
  induction fuel generalizing j with
  | zero => simp [fetchGo] at h
  | succ n ih =>
    by_cases hs : attemptSuccess (attempts j) = true
    · cases hdec : (attempts j).decoded with
      | some rows =>
        rw [fetchGo] at h
        simp [hs, hdec] at h
      | none =>
        refine ⟨0, Nat.succ_pos n, ?_, ?_, ?_, ?_⟩
        · rwa [Nat.add_zero]
        · rwa [Nat.add_zero]
        · intro i hi; omega
        · rw [fetchGo]; simp [hs, hdec]
    · have hs' : attemptSuccess (attempts j) = false := by
        simpa using hs
      have h' : (fetchGo attempts (j + 1) n).outcome = .decodePanic := by
        rw [fetchGo] at h
        simpa [hs'] using h
      obtain ⟨k, hk, h1, h2, h3, h4⟩ := ih (j + 1) h'
      refine ⟨k + 1, Nat.succ_lt_succ hk, ?_, ?_, ?_, ?_⟩
      · rwa [show j + (k + 1) = j + 1 + k by omega]
      · rwa [show j + (k + 1) = j + 1 + k by omega]
      · intro i hi
        cases i with
        | zero => simpa using hs'
        | succ m =>
          have hh := h3 m (by omega)
          rwa [show j + (m + 1) = j + 1 + m by omega]
      · rw [fetchGo]; simp [hs', h4]

/-- Claim C5: for every feed the Fetcher issues at most 10 requests; if every
attempt fails the loop ends exhausted after exactly 10 requests and 10 sleeps
(one fixed 1-second sleep after each failed attempt); and on the first attempt
`k` that is transport-ok with a 2xx status the loop stops immediately —
`k + 1` requests, `k` sleeps (one per preceding failed attempt) — returning
the length of the decoded list of article rows. -/
theorem C5_fetcher_retry_policy (attempts : Nat → Attempt) :
    (fetchFeed attempts).requests ≤ 10 ∧
    ((∀ i, i < 10 → attemptSuccess (attempts i) = false) →
      fetchFeed attempts = ⟨.exhausted, 10, 10⟩) ∧
    (∀ k, k < 10 → (∀ i, i < k → attemptSuccess (attempts i) = false) →
      attemptSuccess (attempts k) = true →
      ∀ rows, (attempts k).decoded = some rows →
        fetchFeed attempts = ⟨.success rows.length, k + 1, k⟩) := by
  refine ⟨fetchGo_requests_le attempts 0 10, ?_, ?_⟩
  · intro h
    exact fetchGo_all_fail attempts 0 10 fun i hi => by simpa using h i hi
  · intro k hk hfail hsucc rows hrows
    have hh := fetchGo_first_success attempts 0 10 k hk
      (fun i hi => by simpa using hfail i hi) (by simpa using hsucc)
    rw [Nat.zero_add] at hh
    rw [fetchFeed, hh, hrows]
    rfl

/-- Witness for C5 at a concrete attempt sequence: two failures (HTTP 500)
followed by a 2xx with a three-row body give 3 requests, 2 sleeps, count 3. -/
theorem C5_fetcher_retry_policy_witness :
    fetchFeed attemptsTwoFailThenOk = ⟨.success 3, 3, 2⟩ :=
  (C5_fetcher_retry_policy attemptsTwoFailThenOk).2.2 2 (by decide) (by decide) (by decide)
    [rowEx, rowEx, rowEx] (by decide)

/-! ### Aggregation lemmas -/

theorem lookup?_cons (p : String × Nat) (t : List (String × Nat)) (k : String) :
    lookup? (p :: t) k = if p.1 = k then some p.2 else lookup? t k := by
  by_cases h : p.1 = k <;> simp [lookup?, List.find?_cons, h]

theorem lookup?_mapWrite_self (m : List (String × Nat)) (k : String) (v : Nat) :
    lookup? (mapWrite m k v) k = some v := by
  induction m with
  | nil => simp [mapWrite, lookup?_cons]
  | cons p t ih =>
    by_cases h : p.1 = k
    · simp [mapWrite, h, lookup?_cons]
    · simp [mapWrite, h, lookup?_cons, ih]

theorem lookup?_mapWrite_ne (m : List (String × Nat)) (k k' : String) (v : Nat)
    (h : k' ≠ k) :
    lookup? (mapWrite m k v) k' = lookup? m k' := by
  induction m with
  | nil => simp [mapWrite, lookup?_cons, lookup?, Ne.symm h]
  | cons p t ih =>
    by_cases hp : p.1 = k
    · have hp' : ¬ p.1 = k' := by rw [hp]; exact Ne.symm h
      simp [mapWrite, hp, lookup?_cons, hp', Ne.symm h]
    · simp [mapWrite, hp, lookup?_cons, ih]

theorem keys_mapWrite (m : List (String × Nat)) (k : String) (v : Nat) :
    (mapWrite m k v).map Prod.fst =
      if k ∈ m.map Prod.fst then m.map Prod.fst else m.map Prod.fst ++ [k] := by
  induction m with
  | nil => simp [mapWrite]
  | cons p t ih =>
    by_cases h : p.1 = k
    · simp [mapWrite, h]
    · rw [mapWrite]
      simp only [if_neg h, List.map_cons, ih]
      by_cases hk : k ∈ t.map Prod.fst
      · simp [hk, Ne.symm h]
      · simp [hk, Ne.symm h]

theorem nodup_keys_mapWrite (m : List (String × Nat)) (k : String) (v : Nat)
    (h : (m.map Prod.fst).Nodup) :
    ((mapWrite m k v).map Prod.fst).Nodup := by
  rw [keys_mapWrite]
  split
  · exact h
  · next hk => simp [List.Nodup.append, h, hk]

theorem lookup?_foldl (l : List MagazineData) :
    ∀ (m : List (String × Nat)) (k : String),
      lookup? (l.foldl (fun acc d => mapWrite acc d.magazine d.ingestedArticles) m) k =
        match lastWrite l k with
        | some v => some v
        | none => lookup? m k := by
  induction l with
  | nil => intro m k; rfl
  | cons d t ih =>
    intro m k
    rw [List.foldl_cons, ih]
    cases h : lastWrite t k with
    | some v => simp [lastWrite, h]
    | none =>
      by_cases hk : d.magazine = k
      · subst hk
        simp [lastWrite, h, lookup?_mapWrite_self]
      · simp [lastWrite, h, hk, lookup?_mapWrite_ne _ _ _ _ (fun e => hk e.symm)]

theorem lookup?_aggregate (l : List MagazineData) (k : String) :
    lookup? (aggregate l) k = lastWrite l k := by
  rw [aggregate, lookup?_foldl]
  cases h : lastWrite l k <;> simp [lookup?]

theorem nodup_keys_foldl (l : List MagazineData) :
    ∀ m, (m.map Prod.fst).Nodup →
      ((l.foldl (fun acc d => mapWrite acc d.magazine d.ingestedArticles) m).map
        Prod.fst).Nodup := by
  induction l with
  | nil => intro m h; exact h
  | cons d t ih => intro m h; exact ih _ (nodup_keys_mapWrite _ _ _ h)

theorem nodup_keys_aggregate (l : List MagazineData) :
    ((aggregate l).map Prod.fst).Nodup :=
  nodup_keys_foldl l [] (by simp)

theorem lastWrite_eq_none_iff (l : List MagazineData) (k : String) :
    lastWrite l k = none ↔ ∀ d ∈ l, d.magazine ≠ k := by
  induction l with
  | nil => simp [lastWrite]
  | cons d t ih =>
    cases h : lastWrite t k with
    | some v =>
      simp only [lastWrite, h]
      constructor
      · intro he; exact absurd he (by simp)
      · intro hall
        exact absurd h ((Iff.mpr ih fun x hx => hall x (List.mem_cons_of_mem _ hx)) ▸ by simp)
    | none =>
      by_cases hk : d.magazine = k
      · simp only [lastWrite, h, if_pos hk]
        constructor
        · intro he; simp at he
        · intro hall; exact absurd hk (hall d (List.mem_cons_self d t))
      · simp only [lastWrite, h, if_neg hk]
        constructor
        · intro _ x hx hxk
          rcases List.mem_cons.mp hx with rfl | hx'
          · exact hk hxk
          · exact (ih.mp h) x hx' hxk
        · intro _; trivial

theorem lookup?_eq_none_iff (m : List (String × Nat)) (k : String) :
    lookup? m k = none ↔ k ∉ m.map Prod.fst := by
  rw [lookup?, Option.map_eq_none', List.find?_eq_none]
  constructor
  · intro h hmem
    obtain ⟨p, hp, hpk⟩ := List.mem_map.mp hmem
    exact absurd (by simpa using hpk) (by simpa using h p hp)
  · intro h p hp
    intro hpk
    exact h (List.mem_map.mpr ⟨p, hp, by simpa using hpk⟩)

theorem mem_keys_aggregate (l : List MagazineData) (k : String) :
    k ∈ (aggregate l).map Prod.fst ↔ ∃ d ∈ l, d.magazine = k := by
  constructor
  · intro hk
    by_contra hne
    push_neg at hne
    have h0 : lastWrite l k = none := (lastWrite_eq_none_iff l k).mpr hne
    have h1 : lookup? (aggregate l) k = none := by rw [lookup?_aggregate, h0]
    exact (lookup?_eq_none_iff _ _).mp h1 hk
  · intro he
    by_contra hk
    have h1 := (lookup?_eq_none_iff _ _).mpr hk
    rw [lookup?_aggregate] at h1
    obtain ⟨d, hd, hdk⟩ := he
    exact (lastWrite_eq_none_iff l k).mp h1 d hd hdk

theorem mem_successesInOrder {feeds : List Feed} {attempts : Nat → Nat → Attempt}
    {order : List Nat} {d : MagazineData}
    (h : d ∈ successesInOrder feeds attempts order) :
    ∃ i f, feeds[i]? = some f ∧ feedOutcome attempts i = .success d.ingestedArticles ∧
      d.magazine = f.feedName := by
  obtain ⟨i, _, heq⟩ := List.mem_filterMap.mp h
  cases hf : feeds[i]? with
  | none => rw [hf] at heq; simp at heq
  | some f =>
    rw [hf] at heq
    cases ho : feedOutcome attempts i with
    | success c =>
      rw [ho] at heq
      simp only [Option.some.injEq] at heq
      refine ⟨i, f, hf, ?_, ?_⟩
      · rw [ho, ← heq]
      · rw [← heq]
    | decodePanic => rw [ho] at heq; simp at heq
    | exhausted => rw [ho] at heq; simp at heq

/-- Claim C3: for every feed list, attempt environment and completion order of
the goroutines, the aggregation map has no duplicate magazine key ("exactly one
entry per distinct magazine, never more"); a magazine is a key exactly when
some successful result carried it; and the value stored under a magazine is
the count of the LAST successful result for that magazine in arrival order
(the later write overwrites the earlier one). -/
theorem C3_aggregator_last_write_wins (feeds : List Feed)
    (attempts : Nat → Nat → Attempt) (order : List Nat) :
    ((aggregate (successesInOrder feeds attempts order)).map Prod.fst).Nodup ∧
    (∀ k, k ∈ (aggregate (successesInOrder feeds attempts order)).map Prod.fst ↔
      ∃ d ∈ successesInOrder feeds attempts order, d.magazine = k) ∧
    (∀ k, lookup? (aggregate (successesInOrder feeds attempts order)) k =
      lastWrite (successesInOrder feeds attempts order) k) :=
  ⟨nodup_keys_aggregate _, fun k => mem_keys_aggregate _ k, fun k => lookup?_aggregate _ k⟩

/-- Claim C8: `magDataCh` has capacity `len(feeds)`; each fetch goroutine
performs at most one send on it (exactly one in the success branch, none
otherwise), so over the whole run the number of sends never exceeds the
channel capacity and no producer can block on a full buffer — the
`wg.Wait()` barrier can always release once every goroutine has terminated. -/
theorem C8_channel_never_blocks (feeds : List Feed) (attempts : Nat → Nat → Attempt) :
    (∀ i, sendsOfOutcome (feedOutcome attempts i) ≤ 1) ∧
    totalSends feeds attempts ≤ channelCapacity feeds := by
  constructor
  · intro i; cases feedOutcome attempts i <;> simp [sendsOfOutcome]
  · rw [totalSends, channelCapacity]
    have hb : ∀ x ∈ (List.range feeds.length).map
        (fun i => sendsOfOutcome (feedOutcome attempts i)), x ≤ 1 := by
      intro x hx
      obtain ⟨i, _, rfl⟩ := List.mem_map.mp hx
      cases feedOutcome attempts i <;> simp [sendsOfOutcome]
    have hh := List.sum_le_card_nsmul _ 1 hb
    simpa using hh

/-! ### Sorting and report lemmas -/

theorem mem_iterOrder (agg : List (String × Nat)) (iter : List String) (k : String) :
    k ∈ iterOrder agg iter ↔ k ∈ agg.map Prod.fst := by
  rw [iterOrder]
  split
  · next hp => exact hp.mem_iff
  · exact Iff.rfl

theorem mem_sortKeys (agg : List (String × Nat)) (iter : List String) (k : String) :
    k ∈ sortKeys agg iter ↔ k ∈ agg.map Prod.fst := by
  rw [sortKeys, List.mem_insertionSort, mem_iterOrder]

/-- Claim C4 as stated is false: with two magazines of equal count, the Go map
iteration order `["B", "A"]` (a legal iteration order: Go randomizes it) makes
the stable sort emit B before A, while first-insertion order into the map was
A then B — the tie-break is the randomized iteration order, not
first-insertion order. -/
theorem C4_counterexample :
    (["B", "A"] : List String).Perm ((aggregate arrivalsTie).map Prod.fst) ∧
    buildReportRows (aggregate arrivalsTie) ["B", "A"] ≠
      buildReportRows (aggregate arrivalsTie) ((aggregate arrivalsTie).map Prod.fst) := by
  decide

/-- Claim C4 amended: the report rows are sorted non-decreasing by article
count, the sorted key sequence is a permutation of the map-iteration order of
the keys, and for equal counts the relative order equals the MAP-ITERATION
order of the keys (stable sort) — which Go randomizes, so it is not in
general the first-insertion order. -/
theorem C4_amended_sorted_stable_on_iteration_order
    (agg : List (String × Nat)) (iter : List String) :
    List.Sorted (fun p q : String × Nat => p.2 ≤ q.2) (buildReportRows agg iter) ∧
    (sortKeys agg iter).Perm (iterOrder agg iter) ∧
    (∀ c : List String, c.Pairwise (fun a b => lookupD agg a = lookupD agg b) →
      c.Sublist (iterOrder agg iter) → c.Sublist (sortKeys agg iter)) := by
  haveI ht : IsTotal String (countLe agg) := ⟨fun a b => Nat.le_total _ _⟩
  haveI htr : IsTrans String (countLe agg) := ⟨fun a b c hab hbc => Nat.le_trans hab hbc⟩
  refine ⟨?_, List.perm_insertionSort _ _, ?_⟩
  · have hs := List.sorted_insertionSort (countLe agg) (iterOrder agg iter)
    rw [buildReportRows]
    exact (List.pairwise_map).mpr (hs.imp fun h => h)
  · intro c hc hsub
    exact List.sublist_insertionSort (hc.imp fun h => le_of_eq h) hsub

/-- Witness for the amended C4 at a concrete aggregation with a tie: the rows
are sorted, and the tie group in iteration order survives into the output. -/
theorem C4_amended_witness :
    List.Sorted (fun p q : String × Nat => p.2 ≤ q.2)
      (buildReportRows (aggregate arrivalsTie) ["B", "A"]) ∧
    (["B", "A"] : List String).Sublist (sortKeys (aggregate arrivalsTie) ["B", "A"]) :=
  ⟨(C4_amended_sorted_stable_on_iteration_order (aggregate arrivalsTie) ["B", "A"]).1,
   (C4_amended_sorted_stable_on_iteration_order (aggregate arrivalsTie) ["B", "A"]).2.2
     ["B", "A"] (by decide) (by decide)⟩

/-! ### Run-level theorems: exhaustion, decode panic, Friday gate -/

theorem healthCheckerRun_not_friday (day : Weekday) (tokenRes : Except Unit String)
    (resolver : String → Except Unit SFQueryRes) (feeds : List Feed)
    (attempts : Nat → Nat → Attempt) (order : List Nat) (iter : List String)
    (hday : day ≠ Weekday.friday) :
    healthCheckerRun day tokenRes resolver feeds attempts order iter =
      if anyDecodePanic feeds attempts then none
      else some { reminderInvoked := false, resolverQueries := [],
                  notificationsSent := [],
                  reportRows := buildReportRows
                    (aggregate (successesInOrder feeds attempts order)) iter } := by
  rw [healthCheckerRun]
  simp only [if_neg hday]
  simp [notificationsOf, hday]

/-- Claim C1 as stated is false: a feed whose 10 attempts all fail produces
no channel send at all, so with a single all-failing feed the run completes
(no crash) but the report is EMPTY — the feed is dropped, with no "unknown"
marker row (indeed no row). -/
theorem C1_counterexample :
    feedOutcome attemptsAllFail 0 = .exhausted ∧
    healthCheckerRun .monday (.ok "") resolverEmpty [feedA] attemptsAllFail [0] [] =
      some { reminderInvoked := false, resolverQueries := [], notificationsSent := [],
             reportRows := [] } := by
  decide

/-- Claim C1 amended: when a feed exhausts all 10 attempts the run does not
crash and the feed's count is not coerced to zero — but the feed is silently
DROPPED from the report: no row for its magazine appears at all (assuming no
other feed with the same magazine name succeeded). -/
theorem C1_amended_exhausted_feed_dropped
    (day : Weekday) (tokenRes : Except Unit String)
    (resolver : String → Except Unit SFQueryRes) (feeds : List Feed)
    (attempts : Nat → Nat → Attempt) (order : List Nat) (iter : List String)
    (i : Nat) (f : Feed)
    (hday : day ≠ Weekday.friday)
    (hnp : anyDecodePanic feeds attempts = false)
    (_hf : feeds[i]? = some f)
    (_hex : feedOutcome attempts i = .exhausted)
    (huniq : ∀ j g, feeds[j]? = some g → g.feedName = f.feedName →
      ∀ c, feedOutcome attempts j ≠ .success c) :
    ∃ t, healthCheckerRun day tokenRes resolver feeds attempts order iter = some t ∧
      f.feedName ∉ t.reportRows.map Prod.fst ∧
      ∀ c, (f.feedName, c) ∉ t.reportRows := by
  have hrun := healthCheckerRun_not_friday day tokenRes resolver feeds attempts order iter hday
  rw [hnp] at hrun
  simp only [Bool.false_eq_true, if_false] at hrun
  have hnot : f.feedName ∉
      (buildReportRows (aggregate (successesInOrder feeds attempts order)) iter).map
        Prod.fst := by
    intro hmem
    have h1 : f.feedName ∈ sortKeys (aggregate (successesInOrder feeds attempts order)) iter := by
      simpa [buildReportRows, List.map_map, Function.comp_def] using hmem
    have h2 := (mem_sortKeys _ _ _).mp h1
    have h3 := (mem_keys_aggregate _ _).mp h2
    obtain ⟨d, hd, hdk⟩ := h3
    obtain ⟨j, g, hg, hout, hmag⟩ := mem_successesInOrder hd
    exact huniq j g hg (by rw [← hmag]; exact hdk) d.ingestedArticles hout
  refine ⟨_, hrun, hnot, fun c hc => hnot ?_⟩
  exact List.mem_map_of_mem Prod.fst hc

/-- Witness for the amended C1: one feed, every attempt a transport error;
the run completes and the report has no row for the feed's magazine. -/
theorem C1_amended_witness :
    ∃ t, healthCheckerRun .monday (.ok "") resolverEmpty [feedA] attemptsAllFail [0] [] =
      some t ∧
      feedA.feedName ∉ t.reportRows.map Prod.fst ∧
      ∀ c, (feedA.feedName, c) ∉ t.reportRows :=
  C1_amended_exhausted_feed_dropped .monday (.ok "") resolverEmpty [feedA] attemptsAllFail
    [0] [] 0 feedA (by decide) (by decide) (by decide) (by decide)
    (fun j g hg _ c hout => by
      cases j with
      | zero =>
        have he : feedOutcome attemptsAllFail 0 = .exhausted := by decide
        rw [he] at hout
        exact FetchOutcome.noConfusion hout
      | succ n => simp at hg)

/-- Claim C2 as stated is false: a decode failure on a 2xx response calls
`panic(err)` inside the goroutine, which terminates the WHOLE process — here
feed 0's body fails to decode while feed 1 succeeds, and the run produces no
report at all instead of continuing with feed 1's result. -/
theorem C2_counterexample :
    feedOutcome attemptsDecodeFail 0 = .decodePanic ∧
    feedOutcome attemptsDecodeFail 1 = .success 0 ∧
    healthCheckerRun .monday (.ok "") resolverEmpty [feedA, feedB] attemptsDecodeFail
      [0, 1] [] = none := by
  decide

/-- Claim C2 amended: a decode failure on a 2xx response is indeed not
retried — the attempt chain stops at that attempt (k+1 requests after k
failed attempts) and no result is produced for the feed — but it is fatal to
the WHOLE run: the goroutine panics and the process dies before any report
is built. -/
theorem C2_amended_decode_failure_panics
    (day : Weekday) (tokenRes : Except Unit String)
    (resolver : String → Except Unit SFQueryRes) (feeds : List Feed)
    (attempts : Nat → Nat → Attempt) (order : List Nat) (iter : List String) (i : Nat)
    (hi : i < feeds.length)
    (hp : feedOutcome attempts i = .decodePanic) :
    (∃ k, k < 10 ∧ attemptSuccess (attempts i k) = true ∧
      (attempts i k).decoded = none ∧
      (∀ m, m < k → attemptSuccess (attempts i m) = false) ∧
      fetchFeed (attempts i) = ⟨.decodePanic, k + 1, k⟩) ∧
    healthCheckerRun day tokenRes resolver feeds attempts order iter = none := by
  constructor
  · have hh := fetchGo_decodePanic_elim (attempts i) 0 10 hp
    simpa using hh
  · have hap : anyDecodePanic feeds attempts = true := by
      rw [anyDecodePanic, List.any_eq_true]
      exact ⟨i, List.mem_range.mpr hi, by simp [hp]⟩
    rw [healthCheckerRun]
    rcases hr : (if day = Weekday.friday then pausedFeedReminder tokenRes resolver feeds
      else ⟨GrouperResult.ok [], []⟩).result <;> simp [hr, hap]

/-- Witness for the amended C2: feed 0's first attempt is a 2xx whose body
fails to decode; the loop stops after that single request and the whole run
returns no report. -/
theorem C2_amended_witness :
    (∃ k, k < 10 ∧ attemptSuccess (attemptsDecodeFail 0 k) = true ∧
      (attemptsDecodeFail 0 k).decoded = none ∧
      (∀ m, m < k → attemptSuccess (attemptsDecodeFail 0 m) = false) ∧
      fetchFeed (attemptsDecodeFail 0) = ⟨.decodePanic, 0 + 1, 0⟩) ∧
    healthCheckerRun .tuesday (.ok "") resolverEmpty [feedA, feedB] attemptsDecodeFail
      [0, 1] [] = none := by
  have hh := C2_amended_decode_failure_panics .tuesday (.ok "") resolverEmpty
    [feedA, feedB] attemptsDecodeFail [0, 1] [] 0 (by decide) (by decide)
  refine ⟨⟨0, by decide, by decide, by decide, fun m hm => absurd hm (by omega), by decide⟩, hh.2⟩

/-- Claim C9: on any weekday other than Friday the paused-feed reminder path
does not run — no Salesforce owner query is issued and no notification is
sent even when paused feeds are present — while the ingestion-count report is
built exactly as always; and when both a non-Friday run and the Friday run
complete, they produce the same report rows. -/
theorem C9_friday_gate (day : Weekday) (tokenRes : Except Unit String)
    (resolver : String → Except Unit SFQueryRes) (feeds : List Feed)
    (attempts : Nat → Nat → Attempt) (order : List Nat) (iter : List String)
    (hday : day ≠ Weekday.friday) :
    (healthCheckerRun day tokenRes resolver feeds attempts order iter =
      if anyDecodePanic feeds attempts then none
      else some { reminderInvoked := false, resolverQueries := [],
                  notificationsSent := [],
                  reportRows := buildReportRows
                    (aggregate (successesInOrder feeds attempts order)) iter }) ∧
    (∀ t t', healthCheckerRun day tokenRes resolver feeds attempts order iter = some t →
      healthCheckerRun Weekday.friday tokenRes resolver feeds attempts order iter = some t' →
      t.reportRows = t'.reportRows) := by
  have hrun := healthCheckerRun_not_friday day tokenRes resolver feeds attempts order iter hday
  refine ⟨hrun, ?_⟩
  intro t t' ht ht'
  rw [hrun] at ht
  by_cases hnp : anyDecodePanic feeds attempts
  · rw [if_pos hnp] at ht; exact absurd ht (by simp)
  · rw [if_neg hnp] at ht
    have htr : t.reportRows = buildReportRows
        (aggregate (successesInOrder feeds attempts order)) iter := by
      cases ht; rfl
    rw [healthCheckerRun] at ht'
    have hfe : (if Weekday.friday = Weekday.friday then
        pausedFeedReminder tokenRes resolver feeds
        else ⟨GrouperResult.ok [], []⟩) = pausedFeedReminder tokenRes resolver feeds :=
      if_pos rfl
    rw [hfe] at ht'
    rcases hr : (pausedFeedReminder tokenRes resolver feeds).result with g | _ | _ <;>
      simp only [hr] at ht'
    · rw [if_neg hnp] at ht'
      cases ht'
      exact htr
    · rw [if_neg hnp] at ht'
      cases ht'
      exact htr
    · exact Option.noConfusion ht'

/-- Witness for C9: a Wednesday run with one paused feed issues no query,
sends no notification, and still produces the report rows. -/
theorem C9_friday_gate_witness :
    healthCheckerRun .wednesday (.ok "") resolverOne [feedP] attemptsOneRow [0] ["MagP"] =
      if anyDecodePanic [feedP] attemptsOneRow then none
      else some { reminderInvoked := false, resolverQueries := [],
                  notificationsSent := [],
                  reportRows := buildReportRows
                    (aggregate (successesInOrder [feedP] attemptsOneRow [0])) ["MagP"] } :=
  (C9_friday_gate .wednesday (.ok "") resolverOne [feedP] attemptsOneRow [0] ["MagP"]
    (by decide)).1

/-! ### Paused-feed grouper lemmas -/

theorem ownerGroup_cons (p : String × List Feed) (t : List (String × List Feed)) (e : String) :
    ownerGroup (p :: t) e = if p.1 = e then p.2 else ownerGroup t e := by
  by_cases h : p.1 = e <;> simp [ownerGroup, List.find?_cons, h]

theorem ownerGroup_appendOwner_self (m : List (String × List Feed)) (e : String) (g : Feed) :
    ownerGroup (appendOwner m e g) e = ownerGroup m e ++ [g] := by
  induction m with
  | nil => simp [appendOwner, ownerGroup_cons, ownerGroup]
  | cons p t ih =>
    by_cases h : p.1 = e
    · simp [appendOwner, h, ownerGroup_cons]
    · simp [appendOwner, h, ownerGroup_cons, ih]

theorem keys_appendOwner (m : List (String × List Feed)) (e : String) (g : Feed) :
    (appendOwner m e g).map Prod.fst =
      if e ∈ m.map Prod.fst then m.map Prod.fst else m.map Prod.fst ++ [e] := by
  induction m with
  | nil => simp [appendOwner]
  | cons p t ih =>
    by_cases h : p.1 = e
    · simp [appendOwner, h]
    · rw [appendOwner]
      simp only [if_neg h, List.map_cons, ih]
      by_cases he : e ∈ t.map Prod.fst
      · simp [he, Ne.symm h]
      · simp [he, Ne.symm h]

theorem groupPaused_queries_ext (resolver : String → Except Unit SFQueryRes)
    (l : List Feed) :
    ∀ m qs, ∃ t, (groupPaused resolver l m qs).queries = qs ++ t := by
  induction l with
  | nil => intro m qs; exact ⟨[], by simp [groupPaused]⟩
  | cons f rest ih =>
    intro m qs
    by_cases hp : f.pauseIngestion
    · cases hres : resolver (queryMag f) with
      | error e => exact ⟨[queryMag f], by simp [groupPaused, hp, hres]⟩
      | ok res =>
        by_cases h1 : res.totalSize < 1
        · obtain ⟨t, ht⟩ := ih m (qs ++ [queryMag f])
          exact ⟨[queryMag f] ++ t, by simp [groupPaused, hp, hres, h1, ht]⟩
        · by_cases h2 : res.totalSize > 1
          · obtain ⟨t, ht⟩ := ih m (qs ++ [queryMag f])
            exact ⟨[queryMag f] ++ t, by simp [groupPaused, hp, hres, h1, h2, ht]⟩
          · cases hrec : res.records with
            | nil => exact ⟨[queryMag f], by simp [groupPaused, hp, hres, h1, h2, hrec]⟩
            | cons r rs =>
              obtain ⟨t, ht⟩ := ih (appendOwner m r.clientSuccessManager.email f)
                (qs ++ [queryMag f])
              exact ⟨[queryMag f] ++ t, by simp [groupPaused, hp, hres, h1, h2, hrec, ht]⟩
    · obtain ⟨t, ht⟩ := ih m qs
      exact ⟨t, by simp [groupPaused, hp, ht]⟩

theorem groupPaused_clean_prefix (resolver : String → Except Unit SFQueryRes)
    (pre rest : List Feed) :
    ∀ (m : List (String × List Feed)) (qs : List String),
      (∀ g ∈ pre, cleanFeed resolver g = true) →
      ∃ m', groupPaused resolver (pre ++ rest) m qs =
        groupPaused resolver rest m' (qs ++ pausedQueries pre) := by
  induction pre with
  | nil =>
    intro m qs _
    exact ⟨m, by simp [pausedQueries]⟩
  | cons g t ih =>
    intro m qs h
    have hg := h g (List.mem_cons_self g t)
    by_cases hp : g.pauseIngestion
    · rw [cleanFeed, hp] at hg
      simp only [Bool.not_true, Bool.false_or] at hg
      cases hres : resolver (queryMag g) with
      | error e => rw [hres] at hg; simp at hg
      | ok res =>
        rw [hres] at hg
        rcases lt_trichotomy res.totalSize 1 with h1 | h1 | h1
        · obtain ⟨m', hm⟩ := ih m (qs ++ [queryMag g])
            (fun x hx => h x (List.mem_cons_of_mem _ hx))
          refine ⟨m', ?_⟩
          rw [List.cons_append,
            show groupPaused resolver (g :: (t ++ rest)) m qs =
              groupPaused resolver (t ++ rest) m (qs ++ [queryMag g]) from by
                simp [groupPaused, hp, hres, h1],
            hm]
          simp [pausedQueries, List.filter_cons, hp, List.append_assoc]
        · cases hrec : res.records with
          | nil =>
            have hg' : (!(decide (res.totalSize = 1) && res.records.isEmpty)) = true := hg
            rw [h1, hrec] at hg'
            simp at hg'
          | cons r rs =>
            have hlt : ¬ res.totalSize < 1 := by omega
            have hgt : ¬ res.totalSize > 1 := by omega
            obtain ⟨m', hm⟩ := ih (appendOwner m r.clientSuccessManager.email g)
              (qs ++ [queryMag g]) (fun x hx => h x (List.mem_cons_of_mem _ hx))
            refine ⟨m', ?_⟩
            rw [List.cons_append,
              show groupPaused resolver (g :: (t ++ rest)) m qs =
                groupPaused resolver (t ++ rest)
                  (appendOwner m r.clientSuccessManager.email g) (qs ++ [queryMag g]) from by
                    simp [groupPaused, hp, hres, hlt, hgt, hrec],
              hm]
            simp [pausedQueries, List.filter_cons, hp, List.append_assoc]
        · have hlt : ¬ res.totalSize < 1 := by omega
          obtain ⟨m', hm⟩ := ih m (qs ++ [queryMag g])
            (fun x hx => h x (List.mem_cons_of_mem _ hx))
          refine ⟨m', ?_⟩
          rw [List.cons_append,
            show groupPaused resolver (g :: (t ++ rest)) m qs =
              groupPaused resolver (t ++ rest) m (qs ++ [queryMag g]) from by
                simp [groupPaused, hp, hres, hlt, h1],
            hm]
          simp [pausedQueries, List.filter_cons, hp, List.append_assoc]
    · obtain ⟨m', hm⟩ := ih m qs (fun x hx => h x (List.mem_cons_of_mem _ hx))
      refine ⟨m', ?_⟩
      rw [List.cons_append,
        show groupPaused resolver (g :: (t ++ rest)) m qs =
          groupPaused resolver (t ++ rest) m qs from by simp [groupPaused, hp],
        hm]
      simp [pausedQueries, List.filter_cons, hp]

/-- Claim C6: processing one paused feed, the grouper skips it (map unchanged,
no owner ever notified for it) when the resolver reports zero matches, skips
it likewise when the resolver reports more than one match (the logged
inconsistency case — no owner is guessed), and on exactly one match appends
the feed to that owner's group; appending two feeds under the same owner
yields one group holding both (hence one shared notification), and appending
never duplicates an owner key. -/
theorem C6_grouper_resolver_outcomes (resolver : String → Except Unit SFQueryRes)
    (f : Feed) (rest : List Feed) (m : List (String × List Feed)) (qs : List String)
    (hf : f.pauseIngestion = true) :
    (∀ res, resolver (queryMag f) = .ok res → res.totalSize < 1 →
      groupPaused resolver (f :: rest) m qs =
        groupPaused resolver rest m (qs ++ [queryMag f])) ∧
    (∀ res, resolver (queryMag f) = .ok res → 1 < res.totalSize →
      groupPaused resolver (f :: rest) m qs =
        groupPaused resolver rest m (qs ++ [queryMag f])) ∧
    (∀ res r rs, resolver (queryMag f) = .ok res → res.totalSize = 1 →
      res.records = r :: rs →
      groupPaused resolver (f :: rest) m qs =
        groupPaused resolver rest (appendOwner m r.clientSuccessManager.email f)
          (qs ++ [queryMag f])) ∧
    (∀ (m' : List (String × List Feed)) e g₁ g₂,
      ownerGroup (appendOwner (appendOwner m' e g₁) e g₂) e =
        ownerGroup m' e ++ [g₁, g₂]) ∧
    (∀ (m' : List (String × List Feed)) e g,
      (appendOwner m' e g).map Prod.fst =
        if e ∈ m'.map Prod.fst then m'.map Prod.fst else m'.map Prod.fst ++ [e]) := by
  refine ⟨?_, ?_, ?_, ?_, keys_appendOwner⟩
  · intro res hres h1
    simp [groupPaused, hf, hres, h1]
  · intro res hres h1
    have hlt : ¬ res.totalSize < 1 := by omega
    simp [groupPaused, hf, hres, hlt, h1]
  · intro res r rs hres h1 hrec
    have hlt : ¬ res.totalSize < 1 := by omega
    have hgt : ¬ res.totalSize > 1 := by omega
    simp [groupPaused, hf, hres, hlt, hgt, hrec]
  · intro m' e g₁ g₂
    rw [ownerGroup_appendOwner_self, ownerGroup_appendOwner_self, List.append_assoc]
    rfl

/-- Witness for C6: a paused feed resolving to one owner is appended to that
owner's group, and two feeds appended under the same owner form one
two-element group. -/
theorem C6_grouper_resolver_outcomes_witness :
    groupPaused resolverOne [feedP] [] [] =
      groupPaused resolverOne [] (appendOwner [] "csm@example.com" feedP) ["MagP"] ∧
    ownerGroup (appendOwner (appendOwner [] "owner@x" feedP) "owner@x" feedQ) "owner@x" =
      [feedP, feedQ] := by
  have h := C6_grouper_resolver_outcomes resolverOne feedP [] [] [] (by decide)
  constructor
  · have hh := h.2.2.1 ⟨[⟨⟨"csm@example.com"⟩⟩], 1, true⟩ ⟨⟨"csm@example.com"⟩⟩ []
      rfl rfl rfl
    rw [show queryMag feedP = "MagP" from by decide] at hh
    exact hh
  · have hh := h.2.2.2.1 [] "owner@x" feedP feedQ
    simpa [ownerGroup] using hh

/-- Claim C7: the first Salesforce query a grouping pass issues for a paused
feed at the head of the list uses "The New York Times" as the magazine filter
when the feed's publisher is "The New York Times" (regardless of its own
feed name), and the feed's own `feedName` otherwise. -/
theorem C7_nyt_override (resolver : String → Except Unit SFQueryRes) (f : Feed)
    (rest : List Feed) (m : List (String × List Feed))
    (hf : f.pauseIngestion = true) :
    (f.publisher = "The New York Times" →
      (groupPaused resolver (f :: rest) m []).queries.head? =
        some "The New York Times") ∧
    (f.publisher ≠ "The New York Times" →
      (groupPaused resolver (f :: rest) m []).queries.head? = some f.feedName) := by
  have hq : (groupPaused resolver (f :: rest) m []).queries.head? = some (queryMag f) := by
    cases hres : resolver (queryMag f) with
    | error e => simp [groupPaused, hf, hres]
    | ok res =>
      by_cases h1 : res.totalSize < 1
      · obtain ⟨t, ht⟩ := groupPaused_queries_ext resolver rest m [queryMag f]
        simp [groupPaused, hf, hres, h1, ht]
      · by_cases h2 : res.totalSize > 1
        · obtain ⟨t, ht⟩ := groupPaused_queries_ext resolver rest m [queryMag f]
          simp [groupPaused, hf, hres, h1, h2, ht]
        · cases hrec : res.records with
          | nil => simp [groupPaused, hf, hres, h1, h2, hrec]
          | cons r rs =>
            obtain ⟨t, ht⟩ := groupPaused_queries_ext resolver rest
              (appendOwner m r.clientSuccessManager.email f) [queryMag f]
            simp [groupPaused, hf, hres, h1, h2, hrec, ht]
  constructor
  · intro hpub
    rw [hq, queryMag, if_pos hpub]
  · intro hpub
    rw [hq, queryMag, if_neg hpub]

/-- Witness for C7: the paused New York Times feed (own feed name "NYT Tech")
is queried as "The New York Times"; the paused feed `feedP` is queried under
its own feed name. -/
theorem C7_nyt_override_witness :
    (groupPaused resolverOne [feedNYT] [] []).queries.head? =
      some "The New York Times" ∧
    (groupPaused resolverOne [feedP] [] []).queries.head? = some "MagP" := by
  constructor
  · exact (C7_nyt_override resolverOne feedNYT [] [] (by decide)).1 (by decide)
  · exact (C7_nyt_override resolverOne feedP [] [] (by decide)).2 (by decide)

/-- Claim C10: if the Salesforce query fails (transport or decode error) on
some paused feed `f`, the grouper returns that error immediately: feeds after
`f` are never queried (the query trace ends at `f`), no owner — including
owners whose groups were already accumulated — is notified, and the enclosing
Friday run logs the error and continues to the report phase. -/
theorem C10_resolver_error_blocks_notifications
    (tok : String) (resolver : String → Except Unit SFQueryRes)
    (pre post : List Feed) (f : Feed)
    (attempts : Nat → Nat → Attempt) (order : List Nat) (iter : List String)
    (hpre : ∀ g ∈ pre, cleanFeed resolver g = true)
    (hf : f.pauseIngestion = true)
    (herr : resolver (queryMag f) = .error ()) :
    (pausedFeedReminder (.ok tok) resolver (pre ++ f :: post)).result = .err ∧
    (pausedFeedReminder (.ok tok) resolver (pre ++ f :: post)).queries =
      pausedQueries pre ++ [queryMag f] ∧
    healthCheckerRun .friday (.ok tok) resolver (pre ++ f :: post) attempts order iter =
      if anyDecodePanic (pre ++ f :: post) attempts then none
      else some { reminderInvoked := true
                  resolverQueries := pausedQueries pre ++ [queryMag f]
                  notificationsSent := []
                  reportRows := buildReportRows
                    (aggregate (successesInOrder (pre ++ f :: post) attempts order))
                    iter } := by
  obtain ⟨m', hm⟩ := groupPaused_clean_prefix resolver pre (f :: post) [] [] hpre
  have hstep : groupPaused resolver (f :: post) m' ([] ++ pausedQueries pre) =
      ⟨.err, pausedQueries pre ++ [queryMag f]⟩ := by
    simp [groupPaused, hf, herr]
  have hres : pausedFeedReminder (.ok tok) resolver (pre ++ f :: post) =
      ⟨.err, pausedQueries pre ++ [queryMag f]⟩ := by
    show groupPaused resolver (pre ++ f :: post) [] [] = _
    rw [hm, hstep]
  refine ⟨by rw [hres], by rw [hres], ?_⟩
  simp [healthCheckerRun, hres, notificationsOf]

/-- Witness for C10: with feeds `[feedP, feedQ, feedNYT]` and a resolver that
fails on "MagQ", the grouper stops after querying "MagP" then "MagQ" — the
New York Times feed is never queried and no notification is recorded. -/
theorem C10_resolver_error_blocks_notifications_witness :
    (pausedFeedReminder (.ok "") resolverErrOnQ [feedP, feedQ, feedNYT]).result = .err ∧
    (pausedFeedReminder (.ok "") resolverErrOnQ [feedP, feedQ, feedNYT]).queries =
      ["MagP", "MagQ"] := by
  have h := C10_resolver_error_blocks_notifications "" resolverErrOnQ [feedP] [feedNYT]
    feedQ attemptsOneRow [0, 1, 2] [] (by decide) (by decide) rfl
  refine ⟨h.1, ?_⟩
  have hq := h.2.1
  rw [show pausedQueries [feedP] ++ [queryMag feedQ] = ["MagP", "MagQ"] from by decide] at hq
  exact hq

end HealthChecker
